import Mathlib

/-!
# Rate limiter verification

A shallow embedding of the rate-limiting core of the `rate-limiter` Go
repository, together with theorems checking the natural-language
specification against it.

Embedding conventions:
* Go `time.Time` / `time.Duration` values are integers counting
  nanoseconds (`ℤ`), exactly as Go represents them.
* Go `float64` quantities (token counts, seconds, rates) are modelled as
  exact rationals (`ℚ`); all concrete scenarios considered use values
  that are exactly representable in binary floating point, so the
  rational model agrees with the Go arithmetic there.
* Go's `float64`-to-integer conversions truncate toward zero, modelled
  by `trunc` below.
* The per-key maps `map[string]*bucket` / `map[string]*windowState` are
  modelled as functions `String → Option _`; an `Allow` call returns the
  updated map (Go mutates in place under a mutex).
* Go's `(*Result, error)` return values are modelled with an explicit
  `Option GoError` component; the Redis-backed strategy returns
  `Option Result × Option GoError` since its `*Result` can be `nil`.
* The Redis backend is modelled as a function from the context, key and
  argument list to `Except GoError` of the reply triple.  The Lua script
  `tokenBucketScript` is embedded together with Redis's sandboxed global
  environment, which binds the key vector as `KEYS` and the argument
  vector as `ARGV` and aborts on a read of any other global name; the
  source script reads its arguments from the unbound global `ARGS`, so
  every invocation errors.  The token-bucket arithmetic that follows the
  argument reads is `tokenBucketScriptBody`.
-/

namespace RateLimiter

/-- Go `error` values, by their message. -/
abbrev GoError := String

/-- Go's float64-to-integer conversion: truncation toward zero.  Also the
behaviour of `time.Duration(float64-expression)`. -/
def trunc (q : ℚ) : ℤ := if 0 ≤ q then ⌊q⌋ else ⌈q⌉

/-- Go `time.Duration.Seconds()`: a nanosecond count as fractional seconds. -/
def durSeconds (d : ℤ) : ℚ := (d : ℚ) / 1000000000

/-- A `context.Context` as far as this code observes it. -/
structure Ctx where
  cancelled : Bool
deriving DecidableEq

/-- The `limiter.Limit` rule: Rate requests per Period (nanoseconds), with Burst
capacity.  Go's `int` fields are modelled as `ℤ`. -/
structure Limit where
  Rate : ℤ
  Period : ℤ
  Burst : ℤ
deriving DecidableEq

/-- The `limiter.Result` decision.  `ResetAfter` is a
`time.Duration`, i.e. nanoseconds. -/
structure Result where
  Allowed : Bool
  Remaining : ℤ
  ResetAfter : ℤ
deriving DecidableEq

/-- Per-key state of the local token bucket (`limiter.bucket`). -/
structure bucket where
  tokens : ℚ
  lastUpdate : ℤ
deriving DecidableEq

/-- The token-bucket strategy's key-indexed state table. -/
abbrev Buckets := String → Option bucket

/-- Map write, `tb.buckets[key] = b`. -/
def Buckets.update (m : Buckets) (k : String) (v : bucket) : Buckets :=
  fun k2 => if k2 = k then some v else m k2

/-- The table `NewTokenBucket` starts from. -/
def emptyBuckets : Buckets := fun _ => none

/-- The full return of a local `Allow` call: the `Result`, the returned
`error`, and the strategy's state table after the call. -/
structure AllowOut (σ : Type) where
  res : Result
  err : Option GoError
  st : σ
deriving DecidableEq

/-- The method `TokenBucket.Allow` from `limiter/limiter.go`: lazily create a full
bucket, refill continuously at `Rate/Period` capped at `Burst`, admit by
consuming one token when at least one is available. -/
def TokenBucket.Allow (_ctx : Ctx) (tb : Buckets) (key : String) (limit : Limit)
    (now : ℤ) : AllowOut Buckets :=
  let b := (tb key).getD { tokens := (limit.Burst : ℚ), lastUpdate := now }
  let tokensPerSec : ℚ := (limit.Rate : ℚ) / durSeconds limit.Period
  let elapsed : ℚ := durSeconds (now - b.lastUpdate)
  let tokens1 : ℚ := b.tokens + elapsed * tokensPerSec
  let tokens2 : ℚ := if tokens1 > (limit.Burst : ℚ) then (limit.Burst : ℚ) else tokens1
  if 1 ≤ tokens2 then
    { res := { Allowed := true, Remaining := trunc (tokens2 - 1), ResetAfter := 0 },
      err := none,
      st := tb.update key { tokens := tokens2 - 1, lastUpdate := now } }
  else
    { res := { Allowed := false, Remaining := 0,
               ResetAfter := trunc ((1 - tokens2) / tokensPerSec * 1000000000) },
      err := none,
      st := tb.update key { tokens := tokens2, lastUpdate := now } }

/-- Running `n` consecutive `TokenBucket.Allow` calls for one key at one instant,
returning each call's `Result` in order and the final state table. -/
def runCalls (ctx : Ctx) (key : String) (limit : Limit) (now : ℤ) :
    ℕ → Buckets → List Result × Buckets
  | 0, tb => ([], tb)
  | n + 1, tb =>
    let out := TokenBucket.Allow ctx tb key limit now
    let rest := runCalls ctx key limit now n out.st
    (out.res :: rest.1, rest.2)

/-- Per-key state of the sliding window counter (`limiter.windowState`). -/
structure windowState where
  currWindowStart : ℤ
  currCount : ℤ
  prevCount : ℤ
deriving DecidableEq

/-- The sliding-window strategy's key-indexed state table. -/
abbrev Windows := String → Option windowState

/-- Map write, `sw.windows[key] = w`. -/
def Windows.update (m : Windows) (k : String) (v : windowState) : Windows :=
  fun k2 => if k2 = k then some v else m k2

/-- The table `NewSlidingWindow` starts from. -/
def emptyWindows : Windows := fun _ => none

/-- The window roll-forward block of `SlidingWindow.Allow` (executed when
`elapsed >= limit.Period`): `windowsPassed := int(elapsed / limit.Period)`
(Go integer division truncates toward zero, `Int.tdiv`), the previous
count becomes the current count exactly when one window passed, the
current count resets, and the window start advances by
`windowsPassed * period`. -/
def rollForward (w : windowState) (period : ℤ) (elapsed : ℤ) : windowState :=
  let windowsPassed := Int.tdiv elapsed period
  { currWindowStart := w.currWindowStart + windowsPassed * period,
    currCount := 0,
    prevCount := if windowsPassed = 1 then w.currCount else 0 }

/-- The method `SlidingWindow.Allow` from `limiter/sliding_window.go`: lazily create
an empty window at `now`, roll the window forward when at least one full
period elapsed, weight the previous window's count by the fraction of the
period not yet covered, and admit while the weighted estimate is below
`Rate`. -/
def SlidingWindow.Allow (_ctx : Ctx) (sw : Windows) (key : String) (limit : Limit)
    (now : ℤ) : AllowOut Windows :=
  let w0 := (sw key).getD { currWindowStart := now, currCount := 0, prevCount := 0 }
  let elapsed := now - w0.currWindowStart
  let w := if limit.Period ≤ elapsed then rollForward w0 limit.Period elapsed else w0
  let timeInCurrent : ℚ := durSeconds (now - w.currWindowStart)
  let windowSize : ℚ := durSeconds limit.Period
  let weight : ℚ := max 0 ((windowSize - timeInCurrent) / windowSize)
  let estimatedCount : ℚ := (w.prevCount : ℚ) * weight + (w.currCount : ℚ)
  if estimatedCount < (limit.Rate : ℚ) then
    let remaining0 := trunc ((limit.Rate : ℚ) - estimatedCount - 1)
    { res := { Allowed := true,
               Remaining := if remaining0 < 0 then 0 else remaining0,
               ResetAfter := 0 },
      err := none,
      st := sw.update key { currWindowStart := w.currWindowStart,
                            currCount := w.currCount + 1,
                            prevCount := w.prevCount } }
  else
    { res := { Allowed := false, Remaining := 0,
               ResetAfter := w.currWindowStart + limit.Period - now },
      err := none,
      st := sw.update key w }

/-- The record the Lua script keeps per key in Redis: hash fields
`tokens` and `last_updated` (fractional seconds since epoch). -/
structure BucketRecord where
  tokens : ℚ
  last_updated : ℚ
deriving DecidableEq

/-- The triple `{allowed, remaining, reset_after}` the Lua script returns. -/
structure ScriptReply where
  allowed : ℤ
  remaining : ℚ
  reset_after : ℚ
deriving DecidableEq

/-- Reading `name[i]` of the key vector in Redis's sandboxed Lua
environment: the key vector is bound only under the global name `KEYS`;
reading any other global name aborts the script with an error (Redis
protects the global table). -/
def luaKeyRead (name : String) (keys : List String) (i : ℕ) : Except GoError String :=
  if name = "KEYS" then .ok (keys.getD (i - 1) "")
  else .error ("Script attempted to access nonexistent global variable " ++ name)

/-- Reading `name[i]` of the numeric argument vector in the same
sandbox: the argument vector is bound only under the global name `ARGV`;
reading any other global name aborts the script.  (The in-bounds
`tonumber` conversion is collapsed to the rational value; the script
under study never reaches a successful read.) -/
def luaArgRead (name : String) (argv : List ℚ) (i : ℕ) : Except GoError ℚ :=
  if name = "ARGV" then .ok (argv.getD (i - 1) 0)
  else .error ("Script attempted to access nonexistent global variable " ++ name)

/-- The token-bucket arithmetic in the second half of the Lua script,
after the argument reads: a pure function from the stored record
(`none` when the key holds no record) and the local values
`rate` (tokens/sec), `capacity`, `now` (fractional unix seconds) and
`requested`, to the reply triple, the record after the call, and the
`PEXPIRE` milliseconds requested (`none` when no expiry is set).  In the
source this code is reachable only if the argument reads succeed. -/
def tokenBucketScriptBody (pre : Option BucketRecord)
    (rate capacity now requested : ℚ) :
    ScriptReply × Option BucketRecord × Option ℤ :=
  let last_tokens : ℚ := match pre with
    | some r => r.tokens
    | none => capacity
  let last_updated : ℚ := match pre with
    | some r => r.last_updated
    | none => now
  let delta : ℚ := max 0 (now - last_updated)
  let filled_tokens : ℚ := min capacity (last_tokens + delta * rate)
  if requested ≤ filled_tokens then
    ({ allowed := 1, remaining := filled_tokens - requested, reset_after := 0 },
     some { tokens := filled_tokens - requested, last_updated := now },
     some 60000)
  else
    ({ allowed := 0, remaining := filled_tokens,
       reset_after := (requested - filled_tokens) / rate },
     pre, none)

/-- The Lua `tokenBucketScript` as the source defines it, run in Redis's
sandbox: `pre` is the record stored under the called key, `keys` is the
key vector (bound as the global `KEYS`) and `argv` the argument vector
(bound as the global `ARGV`).  The script reads `KEYS[1]`, then reads
its four numeric arguments from the global `ARGS` — a name the sandbox
does not bind — so every invocation aborts at the first such read,
before `tokenBucketScriptBody` is reached. -/
def tokenBucketScript (pre : Option BucketRecord) (keys : List String)
    (argv : List ℚ) :
    Except GoError (ScriptReply × Option BucketRecord × Option ℤ) := do
  let _key ← luaKeyRead "KEYS" keys 1
  let rate ← luaArgRead "ARGS" argv 1
  let capacity ← luaArgRead "ARGS" argv 2
  let now ← luaArgRead "ARGS" argv 3
  let requested ← luaArgRead "ARGS" argv 4
  return tokenBucketScriptBody pre rate capacity now requested

/-- A value in the backend's reply vector, as seen by the Go caller's
`toFloat` helper (`int64`, `float64`, or anything else). -/
inductive RedisVal : Type
  | int (i : ℤ)
  | float (q : ℚ)
  | other
deriving DecidableEq

/-- The caller's `toFloat` helper: `float64` and `int64` convert, any
other type yields 0. -/
def toFloat : RedisVal → ℚ
  | .float t => t
  | .int t => (t : ℚ)
  | .other => 0

/-- One execution's outcome of `tokenBucketScript.Run(...).Result()`:
either a backend error or the reply triple `(allowed, remaining,
reset_after)`. -/
abbrev Backend := Ctx → String → List ℚ → Except GoError (ℤ × RedisVal × RedisVal)

/-- The argument vector `RedisTokenBucket.Allow` passes to the script:
rate per second, capacity, fractional unix seconds (from microseconds),
and one requested token. -/
def allowArgs (limit : Limit) (nowMicro : ℤ) : List ℚ :=
  [(limit.Rate : ℚ) / durSeconds limit.Period, (limit.Burst : ℚ),
   (nowMicro : ℚ) / 1000000, 1]

/-- The method `RedisTokenBucket.Allow`: run the script through the backend; on a
backend error return `(nil, err)`; otherwise translate the reply triple
into a `Result`. -/
def RedisTokenBucket.Allow (backend : Backend) (ctx : Ctx) (key : String)
    (limit : Limit) (nowMicro : ℤ) : Option Result × Option GoError :=
  match backend ctx key (allowArgs limit nowMicro) with
  | .error e => (none, some e)
  | .ok (allowedVal, remV, raV) =>
    let remainingVal := toFloat remV
    let resetAfterVal := toFloat raV
    (some { Allowed := allowedVal == 1,
            Remaining := trunc remainingVal,
            ResetAfter := if 0 < resetAfterVal then trunc (resetAfterVal * 1000000000) else 0 },
     none)

/-- The script's reply triple as the backend hands it to the Go caller. -/
def encodeReply (r : ScriptReply) : ℤ × RedisVal × RedisVal :=
  (r.allowed, .float r.remaining, .float r.reset_after)

/-- A backend that holds the record `pre` for the called key: Redis
executes `tokenBucketScript` atomically with the key vector `[key]`
bound as `KEYS` and the caller's argument vector bound as `ARGV`, and
hands a successful reply triple (or the script's error) back to the Go
caller. -/
def scriptBackend (pre : Option BucketRecord) : Backend := fun _ key args =>
  match tokenBucketScript pre [key] args with
  | .error e => .error e
  | .ok (reply, _, _) => .ok (encodeReply reply)

/-- The `Limit{rate=5, period=10s, burst=10}` of the spec's concrete
local-token-bucket scenario (period in nanoseconds). -/
def c1Limit : Limit := { Rate := 5, Period := 10000000000, Burst := 10 }

/-- A context value for concrete scenarios. -/
def liveCtx : Ctx := { cancelled := false }

/-- C1 (counterexample): in the concrete scenario
`Limit{rate=5, period=10s, burst=10}` on an empty local token bucket with
all 11 calls at the same instant, the 11th call's `ResetAfter` is exactly
2 seconds (2000000000 ns) — one token at 0.5 tokens/sec takes 2 s — and
is therefore not approximately 0.2 seconds (not within [0.1 s, 0.3 s]). -/
theorem c1_resetAfter_counterexample :
    ((runCalls liveCtx "user" c1Limit 0 11 emptyBuckets).1.getD 10
        { Allowed := true, Remaining := 0, ResetAfter := 0 }).ResetAfter = 2000000000 ∧
    ¬(100000000 ≤ ((runCalls liveCtx "user" c1Limit 0 11 emptyBuckets).1.getD 10
        { Allowed := true, Remaining := 0, ResetAfter := 0 }).ResetAfter ∧
      ((runCalls liveCtx "user" c1Limit 0 11 emptyBuckets).1.getD 10
        { Allowed := true, Remaining := 0, ResetAfter := 0 }).ResetAfter ≤ 300000000) := by
  norm_num [runCalls, TokenBucket.Allow, Buckets.update, emptyBuckets, durSeconds, trunc,
    c1Limit, liveCtx]

/-- C1 (amended): for `Limit{rate=5, period=10s, burst=10}` starting from
no state for the key, with all calls at the same instant, the first 10
`Allow` calls are all admitted with `Remaining` strictly decreasing from
9 to 0, and the 11th call is denied with `ResetAfter` exactly 2 seconds
(the time for 1 token at 0.5 tokens/sec). -/
theorem c1_scenario_amended :
    (runCalls liveCtx "user" c1Limit 0 11 emptyBuckets).1 =
      [{ Allowed := true, Remaining := 9, ResetAfter := 0 },
       { Allowed := true, Remaining := 8, ResetAfter := 0 },
       { Allowed := true, Remaining := 7, ResetAfter := 0 },
       { Allowed := true, Remaining := 6, ResetAfter := 0 },
       { Allowed := true, Remaining := 5, ResetAfter := 0 },
       { Allowed := true, Remaining := 4, ResetAfter := 0 },
       { Allowed := true, Remaining := 3, ResetAfter := 0 },
       { Allowed := true, Remaining := 2, ResetAfter := 0 },
       { Allowed := true, Remaining := 1, ResetAfter := 0 },
       { Allowed := true, Remaining := 0, ResetAfter := 0 },
       { Allowed := false, Remaining := 0, ResetAfter := 2000000000 }] := by
  norm_num [runCalls, TokenBucket.Allow, Buckets.update, emptyBuckets, durSeconds, trunc,
    c1Limit, liveCtx]

/-- A `Limit{rate=10, period=1s, burst=10}` used by the distributed
scenarios. -/
def rLimit : Limit := { Rate := 10, Period := 1000000000, Burst := 10 }

/-- C2 (code bug): the backend script can never perform the claimed
admit-persist-expire transition, because it reads its numeric arguments
from the global `ARGS`, a name Redis's Lua sandbox does not bind (the
argument vector is bound as `ARGV`).  At the failing input — fresh key
`"user"` with no stored record, `Limit{rate=10, period=1s, burst=10}`,
`nowMicro = 0`, where the intended algorithm would compute
`filled = min(10, 10 + 0·10) = 10 ≥ 1`, admit, persist `tokens = 9` with
a 60000 ms expiry, and make `Allow` return `Allowed = true` with
remaining 9 (second conjunct, on the body the script never reaches) —
the script instead aborts at the first `ARGS` read and
`RedisTokenBucket.Allow` returns a nil `Result` with the script error
(first and third conjuncts). -/
theorem c2_script_aborts_on_args :
    tokenBucketScript none ["user"] (allowArgs rLimit 0) =
      .error "Script attempted to access nonexistent global variable ARGS" ∧
    tokenBucketScriptBody none 10 10 0 1 =
      ({ allowed := 1, remaining := 9, reset_after := 0 },
       some { tokens := 9, last_updated := 0 }, some 60000) ∧
    RedisTokenBucket.Allow (scriptBackend none) liveCtx "user" rLimit 0 =
      (none,
       some "Script attempted to access nonexistent global variable ARGS") := by
  refine ⟨rfl, ?_, rfl⟩
  norm_num [tokenBucketScriptBody]

/-- C3 (code bug): no call of the backend script is ever denied, so the
claimed read-only denial reply is never produced: the script aborts
reading the unbound global `ARGS` before touching the record.  At the
failing input — stored record `⟨tokens = 0, last_updated = 0⟩` with
argument vector `[rate = 1, capacity = 10, now = 0, requested = 1]`,
where the intended algorithm computes `filled = 0 < 1` and would deny
with `remaining = filled = 0` and
`reset_after = (requested - filled)/rate = 1` while leaving the record
untouched (second conjunct, on the body the script never reaches) — the
script instead aborts with the `ARGS` error (first conjunct). -/
theorem c3_script_never_denies :
    tokenBucketScript (some { tokens := 0, last_updated := 0 }) ["user"]
        [1, 10, 0, 1] =
      .error "Script attempted to access nonexistent global variable ARGS" ∧
    tokenBucketScriptBody (some { tokens := 0, last_updated := 0 }) 1 10 0 1 =
      ({ allowed := 0, remaining := 0, reset_after := 1 },
       some { tokens := 0, last_updated := 0 }, none) := by
  refine ⟨rfl, ?_⟩
  norm_num [tokenBucketScriptBody]

/-- C6: whenever the backend script call fails (including cancellation or
deadline expiry surfaced as an error), `RedisTokenBucket.Allow` returns
exactly that error together with a nil `Result` — never a default
admission or denial. -/
theorem c6_backend_error_propagates (backend : Backend) (ctx : Ctx) (key : String)
    (limit : Limit) (nowMicro : ℤ) (e : GoError)
    (herr : backend ctx key (allowArgs limit nowMicro) = .error e) :
    RedisTokenBucket.Allow backend ctx key limit nowMicro = (none, some e) := by
  simp only [RedisTokenBucket.Allow, herr]

/-- C6 witness: a backend that always fails with "context canceled"
makes `Allow` return `(nil, that error)`. -/
theorem c6_backend_error_propagates_witness :
    (fun (_ : Ctx) (_ : String) (_ : List ℚ) =>
        (Except.error "context canceled" : Except GoError (ℤ × RedisVal × RedisVal)))
      { cancelled := true } "user" (allowArgs rLimit 0) = .error "context canceled" ∧
    RedisTokenBucket.Allow
      (fun (_ : Ctx) (_ : String) (_ : List ℚ) =>
        (Except.error "context canceled" : Except GoError (ℤ × RedisVal × RedisVal)))
      { cancelled := true } "user" rLimit 0 = (none, some "context canceled") :=
  ⟨rfl,
   c6_backend_error_propagates _ { cancelled := true } "user" rLimit 0
     "context canceled" rfl⟩

/-- C9: the sliding window counter ignores `Limit.Burst` entirely: two
limits agreeing on `Rate` and `Period` but differing in `Burst` yield the
same `Result`, the same returned error, and the same per-key state, for
every context, table, key and time. -/
theorem c9_burst_unused (ctx : Ctx) (sw : Windows) (key : String)
    (r p b b2 : ℤ) (now : ℤ) :
    SlidingWindow.Allow ctx sw key { Rate := r, Period := p, Burst := b } now =
      SlidingWindow.Allow ctx sw key { Rate := r, Period := p, Burst := b2 } now := rfl

/-- C7: for every key, context and limit with positive rate and period,
both local strategies' `Allow` return a nil error: neither has a failure
path. -/
theorem c7_local_no_error (ctx : Ctx) (tb : Buckets) (sw : Windows) (key : String)
    (limit : Limit) (now : ℤ) (hr : 0 < limit.Rate) (hp : 0 < limit.Period) :
    (TokenBucket.Allow ctx tb key limit now).err = none ∧
    (SlidingWindow.Allow ctx sw key limit now).err = none := by
  constructor
  · simp only [TokenBucket.Allow]
    split_ifs <;> rfl
  · simp only [SlidingWindow.Allow]
    split_ifs <;> rfl

/-- C7 witness: the concrete instance with empty tables,
`Limit{rate=5, period=10s, burst=10}`, at time 0. -/
theorem c7_local_no_error_witness :
    0 < c1Limit.Rate ∧ 0 < c1Limit.Period ∧
    ((TokenBucket.Allow liveCtx emptyBuckets "user" c1Limit 0).err = none ∧
     (SlidingWindow.Allow liveCtx emptyWindows "user" c1Limit 0).err = none) :=
  ⟨by norm_num [c1Limit], by norm_num [c1Limit],
   c7_local_no_error liveCtx emptyBuckets emptyWindows "user" c1Limit 0
     (by norm_num [c1Limit]) (by norm_num [c1Limit])⟩

/-- C5: whenever at least one full period elapsed
(`period ≤ elapsed`, `0 < period`), the sliding window state rolls
forward with `windowsPassed = ⌊elapsed / period⌋`: `prevCount` becomes
the old `currCount` exactly when `windowsPassed = 1` and 0 otherwise
(here `windowsPassed > 1`, since `windowsPassed ≥ 1` always holds under
the hypotheses), `currCount` resets to 0, and `currWindowStart` advances
by exactly `windowsPassed * period`. -/
theorem c5_window_roll (w : windowState) (period elapsed : ℤ)
    (hp : 0 < period) (he : period ≤ elapsed) :
    rollForward w period elapsed =
      { currWindowStart :=
          w.currWindowStart + ⌊(elapsed : ℚ) / (period : ℚ)⌋ * period,
        currCount := 0,
        prevCount := if ⌊(elapsed : ℚ) / (period : ℚ)⌋ = 1 then w.currCount else 0 } := by
  have h0 : 0 ≤ elapsed := le_trans hp.le he
  have hfl : ⌊(elapsed : ℚ) / (period : ℚ)⌋ = elapsed / period := by
    have h1 := Rat.floor_intCast_div_natCast elapsed period.toNat
    have h2 : ((period.toNat : ℕ) : ℤ) = period := Int.toNat_of_nonneg hp.le
    rw [h2] at h1
    rwa [show ((period.toNat : ℕ) : ℚ) = (period : ℚ) by exact_mod_cast h2] at h1
  have htdiv : Int.tdiv elapsed period = ⌊(elapsed : ℚ) / (period : ℚ)⌋ := by
    rw [Int.tdiv_eq_ediv h0 hp.le, hfl]
  simp only [rollForward, htdiv]

/-- C5 witness: `w = ⟨0, 3, 7⟩`, `period = 10`, `elapsed = 25`:
`windowsPassed = ⌊25/10⌋ = 2`, so the window start advances to 20,
`currCount` resets, and `prevCount` becomes 0. -/
theorem c5_window_roll_witness :
    0 < (10 : ℤ) ∧ (10 : ℤ) ≤ 25 ∧
    rollForward { currWindowStart := 0, currCount := 3, prevCount := 7 } 10 25 =
      { currWindowStart :=
          (0 : ℤ) + ⌊((25 : ℤ) : ℚ) / ((10 : ℤ) : ℚ)⌋ * 10,
        currCount := 0,
        prevCount := if ⌊((25 : ℤ) : ℚ) / ((10 : ℤ) : ℚ)⌋ = 1 then 3 else 0 } :=
  ⟨by norm_num, by norm_num,
   c5_window_roll { currWindowStart := 0, currCount := 3, prevCount := 7 } 10 25
     (by norm_num) (by norm_num)⟩

/-- Reading back a freshly written key. -/
theorem Buckets.update_self (m : Buckets) (k : String) (v : bucket) :
    (m.update k v) k = some v := by simp [Buckets.update]

/-- The Go capping step `if tokens > burst { tokens = burst }` yields
exactly the cap when the cap is not above the value. -/
theorem cap_eq (x c : ℚ) (h : c ≤ x) : (if x > c then c else x) = c := by
  split_ifs with h2
  · rfl
  · exact le_antisymm (not_lt.mp h2) h

/-- The value `durSeconds` of a nonnegative nanosecond count is nonnegative. -/
theorem durSeconds_nonneg (d : ℤ) (h : 0 ≤ d) : 0 ≤ durSeconds d := by
  unfold durSeconds
  apply div_nonneg _ (by norm_num)
  exact_mod_cast h

/-- The refill rate `Rate / Period.Seconds()` is nonnegative for
nonnegative `Rate` and `Period`. -/
theorem tokensPerSec_nonneg (limit : Limit) (hr : 0 ≤ limit.Rate)
    (hp : 0 ≤ limit.Period) :
    0 ≤ (limit.Rate : ℚ) / durSeconds limit.Period :=
  div_nonneg (by exact_mod_cast hr) (durSeconds_nonneg _ hp)

/-- A same-instant `Allow` call on a bucket holding `1 ≤ q ≤ Burst`
tokens admits, reports `trunc (q-1)` remaining, and stores `q - 1`
tokens. -/
theorem TokenBucket.allow_step (ctx : Ctx) (tb : Buckets) (key : String)
    (limit : Limit) (now : ℤ) (q : ℚ)
    (hk : tb key = some { tokens := q, lastUpdate := now })
    (hq1 : 1 ≤ q) (hqb : q ≤ (limit.Burst : ℚ)) :
    TokenBucket.Allow ctx tb key limit now =
      { res := { Allowed := true, Remaining := trunc (q - 1), ResetAfter := 0 },
        err := none,
        st := tb.update key { tokens := q - 1, lastUpdate := now } } := by
  have e0 : durSeconds (now - now) = 0 := by simp [durSeconds]
  simp only [TokenBucket.Allow, hk, Option.getD_some, e0, zero_mul, add_zero]
  rw [if_neg (not_lt.mpr hqb), if_pos hq1]

/-- An `Allow` call on a key with no state, or with a full bucket whose
last update is not in the future, admits and stores `Burst - 1` tokens
(the refill is capped at `Burst`). -/
theorem TokenBucket.allow_full (ctx : Ctx) (tb : Buckets) (key : String)
    (limit : Limit) (now : ℤ)
    (hr : 0 < limit.Rate) (hp : 0 < limit.Period) (hb : 0 < limit.Burst)
    (h0 : tb key = none ∨ ∃ t, t ≤ now ∧
        tb key = some { tokens := (limit.Burst : ℚ), lastUpdate := t }) :
    TokenBucket.Allow ctx tb key limit now =
      { res := { Allowed := true, Remaining := trunc ((limit.Burst : ℚ) - 1),
                 ResetAfter := 0 },
        err := none,
        st := tb.update key { tokens := (limit.Burst : ℚ) - 1, lastUpdate := now } } := by
  have hb1 : (1 : ℚ) ≤ (limit.Burst : ℚ) := by exact_mod_cast hb
  rcases h0 with h | ⟨t, ht, h⟩
  · have e0 : durSeconds (now - now) = 0 := by simp [durSeconds]
    simp only [TokenBucket.Allow, h, Option.getD_none, e0, zero_mul, add_zero]
    rw [if_neg (lt_irrefl (limit.Burst : ℚ)), if_pos hb1]
  · have hel : 0 ≤ durSeconds (now - t) :=
      durSeconds_nonneg _ (sub_nonneg.mpr ht)
    have htps : 0 ≤ (limit.Rate : ℚ) / durSeconds limit.Period :=
      tokensPerSec_nonneg limit hr.le hp.le
    have hmono : (limit.Burst : ℚ) ≤
        (limit.Burst : ℚ) +
          durSeconds (now - t) * ((limit.Rate : ℚ) / durSeconds limit.Period) :=
      le_add_of_nonneg_right (mul_nonneg hel htps)
    simp only [TokenBucket.Allow, h, Option.getD_some]
    rw [cap_eq _ _ hmono, if_pos hb1]

/-- An `Allow` call on an empty bucket at its own update instant denies. -/
theorem TokenBucket.allow_deny_of_zero (ctx : Ctx) (tb : Buckets) (key : String)
    (limit : Limit) (now : ℤ)
    (hk : tb key = some { tokens := 0, lastUpdate := now }) (hb : 0 ≤ limit.Burst) :
    (TokenBucket.Allow ctx tb key limit now).res.Allowed = false := by
  have e0 : durSeconds (now - now) = 0 := by simp [durSeconds]
  have hb0 : (0 : ℚ) ≤ (limit.Burst : ℚ) := by exact_mod_cast hb
  simp only [TokenBucket.Allow, hk, Option.getD_some, e0, zero_mul, add_zero]
  rw [if_neg (not_lt.mpr hb0), if_neg (by norm_num : ¬(1 : ℚ) ≤ 0)]

/-- Draining a bucket: starting from `q` tokens freshly updated at `now`
with `n ≤ q ≤ Burst`, `n` same-instant calls are all admitted and leave
`q - n` tokens. -/
theorem runCalls_drain (ctx : Ctx) (key : String) (limit : Limit) (now : ℤ) :
    ∀ (n : ℕ) (tb : Buckets) (q : ℚ),
      tb key = some { tokens := q, lastUpdate := now } →
      (n : ℚ) ≤ q → q ≤ (limit.Burst : ℚ) →
      (∀ r ∈ (runCalls ctx key limit now n tb).1, r.Allowed = true) ∧
      (runCalls ctx key limit now n tb).2 key =
        some { tokens := q - (n : ℚ), lastUpdate := now }
  | 0, tb, q, hk, _, _ => by
    simp only [runCalls]
    refine ⟨by simp, ?_⟩
    simpa using hk
  | n + 1, tb, q, hk, hnq, hqb => by
    have hq1 : (1 : ℚ) ≤ q := by
      have h1 : (1 : ℚ) ≤ ((n + 1 : ℕ) : ℚ) := by exact_mod_cast Nat.succ_le_succ (Nat.zero_le n)
      exact le_trans h1 hnq
    have hstep := TokenBucket.allow_step ctx tb key limit now q hk hq1 hqb
    have hk2 := Buckets.update_self tb key { tokens := q - 1, lastUpdate := now }
    have ih := runCalls_drain ctx key limit now n
      (tb.update key { tokens := q - 1, lastUpdate := now }) (q - 1) hk2
      (by push_cast at hnq ⊢; linarith) (by linarith)
    constructor
    · intro r hr
      simp only [runCalls, hstep] at hr
      rcases List.mem_cons.mp hr with h | h
      · rw [h]
      · exact ih.1 r h
    · have := ih.2
      simp only [runCalls, hstep]
      rw [this]
      congr 1
      push_cast
      ring_nf

/-- C4: for every key and every limit with positive rate, period and
burst, starting from no state for that key or from a fully refilled
bucket (last updated not after `now`), exactly `Burst` consecutive
same-instant `Allow` calls are admitted and the `(Burst+1)`th call at
that instant is denied. -/
theorem c4_exact_burst_admissions (ctx : Ctx) (tb : Buckets) (key : String)
    (limit : Limit) (now : ℤ)
    (hr : 0 < limit.Rate) (hp : 0 < limit.Period) (hb : 0 < limit.Burst)
    (h0 : tb key = none ∨ ∃ t, t ≤ now ∧
        tb key = some { tokens := (limit.Burst : ℚ), lastUpdate := t }) :
    (∀ r ∈ (runCalls ctx key limit now limit.Burst.toNat tb).1, r.Allowed = true) ∧
    (TokenBucket.Allow ctx (runCalls ctx key limit now limit.Burst.toNat tb).2
        key limit now).res.Allowed = false := by
  obtain ⟨m, hm⟩ : ∃ m, limit.Burst.toNat = m + 1 :=
    ⟨limit.Burst.toNat - 1, by omega⟩
  have hmcast : ((m : ℕ) : ℚ) = (limit.Burst : ℚ) - 1 := by
    have h1 : ((limit.Burst.toNat : ℕ) : ℚ) = (limit.Burst : ℚ) := by
      exact_mod_cast congrArg (Int.cast : ℤ → ℚ) (Int.toNat_of_nonneg hb.le)
    rw [hm] at h1
    push_cast at h1 ⊢
    linarith
  have hfull := TokenBucket.allow_full ctx tb key limit now hr hp hb h0
  have hk2 := Buckets.update_self tb key
    { tokens := (limit.Burst : ℚ) - 1, lastUpdate := now }
  have hdrain := runCalls_drain ctx key limit now m
    (tb.update key { tokens := (limit.Burst : ℚ) - 1, lastUpdate := now })
    ((limit.Burst : ℚ) - 1) hk2 (le_of_eq hmcast) (by linarith)
  have hfinal : (runCalls ctx key limit now m
      (tb.update key { tokens := (limit.Burst : ℚ) - 1, lastUpdate := now })).2 key =
      some { tokens := 0, lastUpdate := now } := by
    rw [hdrain.2, hmcast]
    norm_num
  rw [hm]
  constructor
  · intro r hr2
    simp only [runCalls, hfull] at hr2
    rcases List.mem_cons.mp hr2 with h | h
    · rw [h]
    · exact hdrain.1 r h
  · simp only [runCalls, hfull]
    exact TokenBucket.allow_deny_of_zero ctx _ key limit now hfinal hb.le

/-- The `Limit{rate=2, period=1s, burst=2}` of the C4 witness. -/
def bLimit : Limit := { Rate := 2, Period := 1000000000, Burst := 2 }

/-- C4 witness: `Limit{rate=2, period=1s, burst=2}` on an empty table —
both same-instant calls admitted, the third denied. -/
theorem c4_exact_burst_admissions_witness :
    0 < bLimit.Rate ∧ 0 < bLimit.Period ∧ 0 < bLimit.Burst ∧
    (emptyBuckets "user" = none ∨ ∃ t, t ≤ (0 : ℤ) ∧
        emptyBuckets "user" = some { tokens := (bLimit.Burst : ℚ), lastUpdate := t }) ∧
    ((∀ r ∈ (runCalls liveCtx "user" bLimit 0 bLimit.Burst.toNat emptyBuckets).1,
        r.Allowed = true) ∧
     (TokenBucket.Allow liveCtx
        (runCalls liveCtx "user" bLimit 0 bLimit.Burst.toNat emptyBuckets).2
        "user" bLimit 0).res.Allowed = false) :=
  ⟨by norm_num [bLimit], by norm_num [bLimit], by norm_num [bLimit], Or.inl rfl,
   c4_exact_burst_admissions liveCtx emptyBuckets "user" bLimit 0
     (by norm_num [bLimit]) (by norm_num [bLimit]) (by norm_num [bLimit]) (Or.inl rfl)⟩

/-- C8: for every key and limit with positive rate, period and burst, the
local token bucket's per-key invariant `0 ≤ tokens ≤ Burst` is preserved
by every `Allow` call (admitted or denied), given that the bucket stored
before the call (if any) satisfies it and was last updated not after the
observed time. -/
theorem c8_tokens_invariant (ctx : Ctx) (tb : Buckets) (key : String)
    (limit : Limit) (now : ℤ)
    (hr : 0 < limit.Rate) (hp : 0 < limit.Period) (hb : 0 < limit.Burst)
    (hpre : ∀ b, tb key = some b →
      0 ≤ b.tokens ∧ b.tokens ≤ (limit.Burst : ℚ) ∧ b.lastUpdate ≤ now) :
    ∀ b2, (TokenBucket.Allow ctx tb key limit now).st key = some b2 →
      0 ≤ b2.tokens ∧ b2.tokens ≤ (limit.Burst : ℚ) := by
  intro b2 hb2
  have hB0 : (0 : ℚ) ≤ (limit.Burst : ℚ) := by exact_mod_cast hb.le
  have hB1 : (1 : ℚ) ≤ (limit.Burst : ℚ) := by exact_mod_cast hb
  have htps : 0 ≤ (limit.Rate : ℚ) / durSeconds limit.Period :=
    tokensPerSec_nonneg limit hr.le hp.le
  obtain ⟨q, lu, hbk, hq0, hqB, hlu⟩ :
      ∃ q lu, (tb key).getD { tokens := (limit.Burst : ℚ), lastUpdate := now } =
        { tokens := q, lastUpdate := lu } ∧
        0 ≤ q ∧ q ≤ (limit.Burst : ℚ) ∧ lu ≤ now := by
    cases htb : tb key with
    | none => exact ⟨(limit.Burst : ℚ), now, by simp, hB0, le_refl _, le_refl _⟩
    | some b =>
      obtain ⟨h1, h2, h3⟩ := hpre b htb
      exact ⟨b.tokens, b.lastUpdate, by simp, h1, h2, h3⟩
  have hrefill : 0 ≤ durSeconds (now - lu) *
      ((limit.Rate : ℚ) / durSeconds limit.Period) :=
    mul_nonneg (durSeconds_nonneg _ (sub_nonneg.mpr hlu)) htps
  simp only [TokenBucket.Allow] at hb2
  rw [hbk] at hb2
  dsimp only at hb2
  split_ifs at hb2 with h1 h2 <;>
    (simp [Buckets.update] at hb2; subst hb2; dsimp only at h1 ⊢;
     try dsimp only at h2) <;>
    constructor <;> linarith

/-- C8 witness: the invariant after one call on an empty table with
`Limit{rate=5, period=10s, burst=10}`. -/
theorem c8_tokens_invariant_witness :
    0 < c1Limit.Rate ∧ 0 < c1Limit.Period ∧ 0 < c1Limit.Burst ∧
    (∀ b, emptyBuckets "user" = some b →
      0 ≤ b.tokens ∧ b.tokens ≤ (c1Limit.Burst : ℚ) ∧ b.lastUpdate ≤ (0 : ℤ)) ∧
    (∀ b2, (TokenBucket.Allow liveCtx emptyBuckets "user" c1Limit 0).st "user" = some b2 →
      0 ≤ b2.tokens ∧ b2.tokens ≤ (c1Limit.Burst : ℚ)) :=
  ⟨by norm_num [c1Limit], by norm_num [c1Limit], by norm_num [c1Limit],
   by intro b hcontra; simp [emptyBuckets] at hcontra,
   c8_tokens_invariant liveCtx emptyBuckets "user" c1Limit 0
     (by norm_num [c1Limit]) (by norm_num [c1Limit]) (by norm_num [c1Limit])
     (by intro b hcontra; simp [emptyBuckets] at hcontra)⟩

/-- C10: a denied local token bucket call never decreases the stored
token count: when `Allow` denies on a key with existing state
(`lastUpdate ≤ now`, positive rate/period/burst), the stored tokens
become exactly `min(Burst, old + elapsedSeconds * Rate/PeriodSeconds)`,
which is at least the old value. -/
theorem c10_denied_monotone (ctx : Ctx) (tb : Buckets) (key : String)
    (limit : Limit) (now : ℤ) (q : ℚ) (lu : ℤ)
    (hk : tb key = some { tokens := q, lastUpdate := lu }) (hlu : lu ≤ now)
    (hr : 0 < limit.Rate) (hp : 0 < limit.Period) (hb : 0 < limit.Burst)
    (hden : (TokenBucket.Allow ctx tb key limit now).res.Allowed = false) :
    (TokenBucket.Allow ctx tb key limit now).st key =
      some { tokens := min (limit.Burst : ℚ)
               (q + durSeconds (now - lu) *
                 ((limit.Rate : ℚ) / durSeconds limit.Period)),
             lastUpdate := now } ∧
    q ≤ min (limit.Burst : ℚ)
          (q + durSeconds (now - lu) *
            ((limit.Rate : ℚ) / durSeconds limit.Period)) := by
  have hB1 : (1 : ℚ) ≤ (limit.Burst : ℚ) := by exact_mod_cast hb
  have hel : 0 ≤ durSeconds (now - lu) := durSeconds_nonneg _ (sub_nonneg.mpr hlu)
  have htps : 0 ≤ (limit.Rate : ℚ) / durSeconds limit.Period :=
    tokensPerSec_nonneg limit hr.le hp.le
  have hrefill : 0 ≤ durSeconds (now - lu) *
      ((limit.Rate : ℚ) / durSeconds limit.Period) := mul_nonneg hel htps
  simp only [TokenBucket.Allow, hk, Option.getD_some] at hden ⊢
  by_cases hcap : (limit.Burst : ℚ) <
      q + durSeconds (now - lu) * ((limit.Rate : ℚ) / durSeconds limit.Period)
  · rw [if_pos hcap] at hden ⊢
    rw [if_pos hB1] at hden
    simp at hden
  · rw [if_neg hcap] at hden ⊢
    by_cases hadm : (1 : ℚ) ≤
        q + durSeconds (now - lu) * ((limit.Rate : ℚ) / durSeconds limit.Period)
    · rw [if_pos hadm] at hden
      simp at hden
    · rw [if_neg hadm] at hden ⊢
      have hmin : min (limit.Burst : ℚ)
          (q + durSeconds (now - lu) * ((limit.Rate : ℚ) / durSeconds limit.Period)) =
          q + durSeconds (now - lu) * ((limit.Rate : ℚ) / durSeconds limit.Period) :=
        min_eq_right (not_lt.mp hcap)
      rw [hmin]
      exact ⟨Buckets.update_self tb key _, by linarith⟩

/-- C10 witness: an empty bucket (`tokens = 0`) under
`Limit{rate=2, period=1s, burst=2}` at its own update instant — the call
denies and the stored count stays `min(2, 0 + 0·2) = 0 ≥ 0`. -/
theorem c10_denied_monotone_witness :
    (emptyBuckets.update "user" { tokens := 0, lastUpdate := 0 }) "user" =
      some { tokens := 0, lastUpdate := 0 } ∧
    (0 : ℤ) ≤ 0 ∧ 0 < bLimit.Rate ∧ 0 < bLimit.Period ∧ 0 < bLimit.Burst ∧
    (TokenBucket.Allow liveCtx
        (emptyBuckets.update "user" { tokens := 0, lastUpdate := 0 })
        "user" bLimit 0).res.Allowed = false ∧
    ((TokenBucket.Allow liveCtx
        (emptyBuckets.update "user" { tokens := 0, lastUpdate := 0 })
        "user" bLimit 0).st "user" =
      some { tokens := min (bLimit.Burst : ℚ)
               (0 + durSeconds ((0 : ℤ) - 0) *
                 ((bLimit.Rate : ℚ) / durSeconds bLimit.Period)),
             lastUpdate := 0 } ∧
     (0 : ℚ) ≤ min (bLimit.Burst : ℚ)
          (0 + durSeconds ((0 : ℤ) - 0) *
            ((bLimit.Rate : ℚ) / durSeconds bLimit.Period))) :=
  ⟨Buckets.update_self emptyBuckets "user" { tokens := 0, lastUpdate := 0 },
   le_refl 0, by norm_num [bLimit], by norm_num [bLimit], by norm_num [bLimit],
   by norm_num [TokenBucket.Allow, Buckets.update, emptyBuckets, durSeconds, trunc, bLimit],
   c10_denied_monotone liveCtx
     (emptyBuckets.update "user" { tokens := 0, lastUpdate := 0 }) "user" bLimit 0 0 0
     (Buckets.update_self emptyBuckets "user" { tokens := 0, lastUpdate := 0 })
     (le_refl 0) (by norm_num [bLimit]) (by norm_num [bLimit]) (by norm_num [bLimit])
     (by norm_num [TokenBucket.Allow, Buckets.update, emptyBuckets, durSeconds, trunc,
        bLimit])⟩

end RateLimiter
